import Mathlib

/-!
Shallow embedding of the identity-tracking and cross-modal consolidation core
of the dyadic-storytelling feature-extraction pipeline.

Sources embedded here:
* `src/feature-extraction/local/pose.py` (Keypoint, Skeleton, JOINTS,
  MIN_CONFIDENCE, BAD_MATCH_RMSE, get_rmse, get_center_of_mass,
  get_first_ordered_pair)
* `src/feature-extraction/local/util.py` (UidProvider.get_uid)
* `src/feature-extraction/scripts/extract-pose.py` (match_keypoints,
  IdBuffer.update)
* `src/feature-extraction/scripts/consolidate-pose.py` (process_file)
* `src/feature-extraction/scripts/consolidate-face.py` (get_error)

Modelling conventions:
* Python floats appearing as detector data are modelled exactly as rationals
  (every IEEE double is a rational number); arithmetic is idealized as exact.
* Values that can be NaN at runtime are modelled by `PyFloat`
  (`PyFloat.nan` or `PyFloat.val q`).
* `math.sqrt` is modelled by `Real.sqrt` on the exact rational radicand, so
  functions whose result passes through a square root return `ℝ`.
* Python exceptions (TypeError, KeyError, AssertionError, IndexError) are
  modelled with `Except String`; the error string names the Python exception.
-/

set_option maxHeartbeats 1000000
set_option maxRecDepth 10000

deriving instance DecidableEq for Except

/-- A Python float value as it flows through this program: either NaN or an
exact (rational) number.  Infinities never occur in detector data. -/
inductive PyFloat where
  | nan : PyFloat
  | val : ℚ → PyFloat
deriving DecidableEq, Repr

/-- Python `<` on floats: any comparison against NaN is `False`. -/
def pyLt : PyFloat → PyFloat → Bool
  | PyFloat.val a, PyFloat.val b => decide (a < b)
  | _, _ => false

/-- `local/pose.py` `Keypoint`: `{x, y, confidence}` as produced by a detector. -/
structure Keypoint where
  x : ℚ
  y : ℚ
  confidence : ℚ
deriving DecidableEq, Repr

/-- `local/pose.py` `Skeleton`: a dict of keypoints holding exactly the 25
`JOINTS` keys (modelled as a total function that is only ever read at those
keys), plus an optional persistent id. -/
structure Skeleton where
  joints : String → Keypoint
  id : Option ℕ := none

instance : Inhabited Skeleton :=
  ⟨⟨fun _ => ⟨0, 0, 0⟩, none⟩⟩

/-- `local/pose.py` `JOINTS`: the 25 BODY_25 joint names, in dict insertion
order (`skeleton.joints.values()` iterates them in this order). -/
def JOINTS : List String :=
  [ "nose", "neck",
    "right_shoulder", "right_elbow", "right_wrist",
    "left_shoulder", "left_elbow", "left_wrist",
    "mid_hip",
    "right_hip", "right_knee", "right_ankle",
    "left_hip", "left_knee", "left_ankle",
    "right_eye", "left_eye", "right_ear", "left_ear",
    "left_big_toe", "left_small_toe", "left_heel",
    "right_big_toe", "right_small_toe", "right_heel" ]

/-- `local/pose.py` `MIN_CONFIDENCE = 0.20`. -/
def MIN_CONFIDENCE : ℚ := 1 / 5

/-- `local/pose.py` `BAD_MATCH_RMSE = 1e30` (the large finite sentinel). -/
def BAD_MATCH_RMSE : ℚ := 10 ^ 30

/-- Squared Euclidean distance between two keypoint positions, the common
subterm `(a.x - b.x) ** 2 + (a.y - b.y) ** 2` of `get_rmse` and `get_error`. -/
def sq_dist (a b : Keypoint) : ℚ :=
  (a.x - b.x) ^ 2 + (a.y - b.y) ^ 2

/-- One iteration of the `for joint in JOINTS` loop of
`local/pose.py get_rmse`: skip the joint when either side has
`confidence < MIN_CONFIDENCE`, otherwise accumulate the squared error and
bump the count. -/
def rmse_step (first second : Skeleton) (acc : ℚ × ℕ) (joint : String) : ℚ × ℕ :=
  if (first.joints joint).confidence < MIN_CONFIDENCE ∨
      (second.joints joint).confidence < MIN_CONFIDENCE then acc
  else (acc.1 + sq_dist (first.joints joint) (second.joints joint), acc.2 + 1)

/-- The `(sum_errors, count)` accumulator of `local/pose.py get_rmse` after
the full loop over `JOINTS`. -/
def rmse_acc (first second : Skeleton) : ℚ × ℕ :=
  JOINTS.foldl (rmse_step first second) (0, 0)

/-- The joints that `get_rmse` actually accumulates: both confidences at
least `MIN_CONFIDENCE` (the code skips on strict `<`). -/
def eligible_joints (first second : Skeleton) : List String :=
  JOINTS.filter fun joint =>
    decide (MIN_CONFIDENCE ≤ (first.joints joint).confidence ∧
      MIN_CONFIDENCE ≤ (second.joints joint).confidence)

/-- `local/pose.py get_rmse`: weighted RMSE between two skeletons.  Returns
`BAD_MATCH_RMSE` when `count < 1`, else `math.sqrt(sum_errors / count)`. -/
noncomputable def get_rmse (first second : Skeleton) : ℝ :=
  if (rmse_acc first second).2 < 1 then ((BAD_MATCH_RMSE : ℚ) : ℝ)
  else Real.sqrt (((rmse_acc first second).1 : ℝ) / ((rmse_acc first second).2 : ℝ))

/-- The keypoint returned by `get_center_of_mass`: `x`/`y` can be `np.nan`
(no eligible joints), so they are `PyFloat`s; the confidence is always a
plain number. -/
structure Anchor where
  x : PyFloat
  y : PyFloat
  confidence : ℚ
deriving DecidableEq, Repr

/-- `local/pose.py get_center_of_mass`: geometric center of the joints with
`confidence > MIN_CONFIDENCE` (strict); the returned confidence averages ALL
joints.  With no qualifying joint, returns `Keypoint(nan, nan, 0.0)`. -/
def get_center_of_mass (skeleton : Skeleton) : Anchor :=
  let values := JOINTS.map skeleton.joints
  let xy := values.filter fun k => decide (MIN_CONFIDENCE < k.confidence)
  if xy.length = 0 then ⟨PyFloat.nan, PyFloat.nan, 0⟩
  else
    ⟨PyFloat.val (((xy.map Keypoint.x).sum) / (xy.length : ℚ)),
     PyFloat.val (((xy.map Keypoint.y).sum) / (xy.length : ℚ)),
     ((values.map Keypoint.confidence).sum) / (values.length : ℚ)⟩

/-- Helper for pandas `Index.unique()`: first occurrence of each value, in
encounter order (`seen` accumulates values already emitted). -/
def uniqueFirstAux : List ℕ → List ℕ → List ℕ
  | [], _ => []
  | x :: xs, seen =>
    if x ∈ seen then uniqueFirstAux xs seen
    else x :: uniqueFirstAux xs (x :: seen)

/-- pandas `Index.unique()`: deduplicate keeping first occurrences. -/
def uniqueFirst (l : List ℕ) : List ℕ := uniqueFirstAux l []

/-- `local/pose.py get_skeleton(data, frame, person_id)` restricted to one
frame: the skeleton stored under `person_id` in this frame's rows (the
DataFrame index makes the id unique within a frame). -/
def lookupSkel (rows : List (ℕ × Skeleton)) (person_id : ℕ) : Skeleton :=
  ((rows.find? fun r => decide (r.1 = person_id)).map Prod.snd).getD default

/-- The `for frame in frames` search loop of
`local/pose.py get_first_ordered_pair`: the first frame whose unique
person-id set has more than one element.  `data` models the DataFrame
grouped by frame, in sorted frame order. -/
def firstMulti : List (ℕ × List (ℕ × Skeleton)) → Option (ℕ × List (ℕ × Skeleton))
  | [] => none
  | f :: rest =>
    if 1 < (uniqueFirst (f.2.map Prod.fst)).length then some f
    else firstMulti rest

/-- Python `min(l, key=key)` over a nonempty list `b :: l`: keep the current
best unless the candidate key is strictly smaller (NaN comparisons are
`False`, so a NaN is never beaten once it is the current best). -/
def pyMinBy {β : Type} (key : β → PyFloat) (b : β) (l : List β) : β :=
  l.foldl (fun best x => if pyLt (key x) (key best) then x else best) b

/-- Python `max(l, key=key)` over a nonempty list `b :: l` (mirror image of
`pyMinBy`: replace when the candidate key is strictly greater). -/
def pyMaxBy {β : Type} (key : β → PyFloat) (b : β) (l : List β) : β :=
  l.foldl (fun best x => if pyLt (key best) (key x) then x else best) b

/-- `local/pose.py get_first_ordered_pair`: find the first frame with at
least two ids, compute each id's center of mass, take the ids with the
smallest / largest anchor x, and assert (fatally) that the two ids differ,
that leftmost x < rightmost x (a Python float comparison, `False` on NaN),
and that both anchor confidences are positive. -/
def get_first_ordered_pair (data : List (ℕ × List (ℕ × Skeleton))) :
    Except String (ℕ × ℕ) :=
  match firstMulti data with
  | none => Except.error "AssertionError: expected at least 2 ids"
  | some fr =>
    let ids := uniqueFirst (fr.2.map Prod.fst)
    let min_cm := ids.map fun i => (i, get_center_of_mass (lookupSkel fr.2 i))
    match min_cm with
    | [] => Except.error "AssertionError: empty min_cm"
    | m :: rest =>
      let leftmost := pyMinBy (fun p => p.2.x) m rest
      let rightmost := pyMaxBy (fun p => p.2.x) m rest
      if leftmost.1 = rightmost.1 then
        Except.error "AssertionError: leftmost id equals rightmost id"
      else if pyLt leftmost.2.x rightmost.2.x then
        if 0 < leftmost.2.confidence then
          if 0 < rightmost.2.confidence then Except.ok (leftmost.1, rightmost.1)
          else Except.error "AssertionError: rightmost confidence"
        else Except.error "AssertionError: leftmost confidence"
      else Except.error "AssertionError: x ordering"

/-! ## The combinatorial matcher (`extract-pose.py match_keypoints`) -/

/-- All ways to pick one element out of a list, returning the element and the
remaining list (order preserved).  Picks run left to right, which gives
`itertools.permutations` its lexicographic-by-position order. -/
def pickOne {α : Type} : List α → List (α × List α)
  | [] => []
  | x :: xs => (x, xs) :: (pickOne xs).map fun p => (p.1, x :: p.2)

/-- `itertools.permutations(xs, r)`: all length-`r` tuples of elements of
`xs` taken at distinct positions, in the order itertools yields them. -/
def permutationsR {α : Type} : ℕ → List α → List (List α)
  | 0, _ => [[]]
  | n + 1, xs =>
    (pickOne xs).flatMap fun p => (permutationsR n p.2).map fun rest => p.1 :: rest

/-- `match_keypoints`: `new_indices = [0, ..., C-1]`, padded with `-1`
dummies until its length reaches `P` (no padding when `C ≥ P`). -/
def padded_indices (P C : ℕ) : List ℤ :=
  (List.range C).map Int.ofNat ++ List.replicate (P - C) (-1)

/-- Total cost of one permutation tuple: sum `lookup[old_idx][new_idx]` over
the enumerated entries whose `new_idx` is not a `-1` dummy (generic in the
cost table; in the program `cost i j = get_rmse (previous[i]) (current[j])`). -/
def perm_cost {α : Type} [LinearOrderedField α] (cost : ℕ → ℕ → α)
    (perm : List ℤ) : α :=
  perm.enum.foldl
    (fun acc p => if 0 ≤ p.2 then acc + cost p.1 p.2.toNat else acc) 0

/-- The loop state of `match_keypoints`: `best_permutation` (initially
`None`), `best_rmse` and `second_rmse` (initially `np.inf`, modelled as
`none`). -/
structure MatchState (α : Type) where
  bestPerm : Option (List ℤ)
  best : Option α
  second : Option α

/-- `c < b` where `b : Option α` models a float that is `np.inf` when
`none` (everything finite is below `np.inf`). -/
def optLt {α : Type} [LinearOrder α] (c : α) : Option α → Bool
  | none => true
  | some b => decide (c < b)

/-- One iteration of the `for permutation in matching_permutations` loop of
`match_keypoints`. -/
def step_perm {α : Type} [LinearOrderedField α] (cost : ℕ → ℕ → α)
    (st : MatchState α) (perm : List ℤ) : MatchState α :=
  let c := perm_cost cost perm
  if optLt c st.best then ⟨some perm, some c, st.best⟩
  else if optLt c st.second then ⟨st.bestPerm, st.best, some c⟩
  else st

/-- The salience score value: a Python float that can be NaN, ±inf or
finite, or a raised `ZeroDivisionError` (Python float division by zero
raises rather than returning inf). -/
inductive PyScore (α : Type) where
  | nan : PyScore α
  | inf : PyScore α
  | ninf : PyScore α
  | zeroDivErr : PyScore α
  | val : α → PyScore α
deriving DecidableEq, Repr

/-- Python float division `second / best` where `none` models `np.inf`:
`inf / inf = nan`, `inf / b = ±inf` for finite `b ≠ 0`, `a / inf = 0.0`,
division by zero raises `ZeroDivisionError`. -/
def pyDiv {α : Type} [LinearOrderedField α] : Option α → Option α → PyScore α
  | none, none => PyScore.nan
  | none, some b =>
    if b = 0 then PyScore.zeroDivErr
    else if 0 < b then PyScore.inf else PyScore.ninf
  | some _, none => PyScore.val 0
  | some a, some b => if b = 0 then PyScore.zeroDivErr else PyScore.val (a / b)

/-- The core of `extract-pose.py match_keypoints` (the branch where both
lists are non-empty): enumerate `itertools.permutations(new_indices,
r=len(previous))`, track the best and second-best total cost, and return
the chosen permutation together with `score = second_rmse / best_rmse`.
Generic in the cost table `cost`, which the program fills with
`get_rmse(previous[old_idx], current[new_idx])` before this loop runs. -/
def match_core {α : Type} [LinearOrderedField α] (cost : ℕ → ℕ → α)
    (P C : ℕ) : Option (List ℤ) × PyScore α :=
  let st := (permutationsR P (padded_indices P C)).foldl (step_perm cost)
    ⟨none, none, none⟩
  (st.bestPerm, pyDiv st.second st.best)

/-- The output mapping of the matcher: the `for (old_idx, new_idx) in
enumerate(best_permutation)` pairs with the `-1` dummies dropped — exactly
the pairs along which `current[new_idx].id = previous[old_idx].id` runs. -/
def perm_mapping (perm : List ℤ) : List (ℕ × ℤ) :=
  perm.enum.filter fun p => decide (0 ≤ p.2)

/-- The salience score returned by `extract-pose.py match_keypoints`:
NaN when either list is empty, otherwise the score from the permutation
loop over the `get_rmse` lookup table. -/
noncomputable def match_keypoints_score (previous current : List Skeleton) :
    PyScore ℝ :=
  if current.length = 0 then PyScore.nan
  else if previous.length = 0 then PyScore.nan
  else (match_core
    (fun i j => get_rmse (previous.getD i default) (current.getD j default))
    previous.length current.length).2

/-! ## The flicker stabilizer (`extract-pose.py IdBuffer.update`) -/

/-- Python `set.pop()` on a singleton set: returns its only element
(modelled with `Finset.fold max`; only ever used on singletons). -/
def popUnique (s : Finset ℕ) : ℕ := s.fold max 0 id

/-- `skelly = next(s for s in skeletons if s.id == gained_id); skelly.id =
lost_id`: relabel the first occurrence of `gained` to `lost`. -/
def relabelFirst : List ℕ → ℕ → ℕ → List ℕ
  | [], _, _ => []
  | x :: xs, gained, lost =>
    if x = gained then lost :: xs else x :: relabelFirst xs gained lost

/-- `extract-pose.py IdBuffer.update`, restricted to the ids (the method
reads and writes nothing else of the skeletons).  `buffer` is the known-id
set, `ids` the frame's skeleton ids in list order; returns the new buffer
and the (possibly relabeled) id list. -/
def idBuffer_update (buffer : Finset ℕ) (ids : List ℕ) : Finset ℕ × List ℕ :=
  let new_ids := ids.toFinset
  let lost := buffer \ new_ids
  let gained := new_ids \ buffer
  if gained.card = 0 then (buffer, ids)
  else if 1 < buffer.card ∧ lost.card = 1 ∧ gained.card = 1 then
    (buffer, relabelFirst ids (popUnique gained) (popUnique lost))
  else (new_ids, ids)

/-! ## The identifier allocator (`local/util.py UidProvider.get_uid`) -/

/-- `UidProvider.get_uid`: draw `rand pos` (the stream of
`random.randint(0, MAX_UID)` outputs), retry while the draw is already in
`uids`, and on success append it.  `fuel` bounds the `while True` loop
(the loop has no bound in the source; `none` models non-termination). -/
def get_uid (rand : ℕ → ℕ) : ℕ → ℕ → List ℕ → Option (ℕ × ℕ × List ℕ)
  | 0, _, _ => none
  | fuel + 1, pos, uids =>
    let id := rand pos
    if id ∈ uids then get_uid rand fuel (pos + 1) uids
    else some (id, pos + 1, uids ++ [id])

/-- `n` successive calls of `get_uid` on one `UidProvider`, returning the
issued ids in order. -/
def run_uids (rand : ℕ → ℕ) (fuel : ℕ) : ℕ → ℕ → List ℕ → Option (List ℕ)
  | 0, _, _ => some []
  | n + 1, pos, uids =>
    match get_uid rand fuel pos uids with
    | none => none
    | some (id, pos2, uids2) =>
      (run_uids rand fuel n pos2 uids2).map fun rest => id :: rest

/-! ## The cross-modal cost (`consolidate-face.py get_error`) -/

/-- `consolidate-face.py get_error`: Euclidean anchor distance plus
`uncertainty_weight * (1 - face_anchor.confidence)`. -/
noncomputable def get_error (skeleton_anchor face_anchor : Keypoint)
    (uncertainty_weight : ℚ) : ℝ :=
  Real.sqrt ((sq_dist skeleton_anchor face_anchor : ℚ) : ℝ)
    + (uncertainty_weight : ℝ) * (1 - (face_anchor.confidence : ℝ))

/-! ## The identity propagator (`consolidate-pose.py process_file`) -/

/-- The consolidated output table: rows keyed by `(frame, child_id, joint)`.
A cell is `none` for the zero-initialized value and `some auto_id` after
`output.loc[(frame, child_id, joint), :] = frame_data.loc[(auto_id, joint), :]`
copied that detection's row in. -/
abbrev Table : Type := List ((ℕ × ℕ × String) × Option ℕ)

/-- pandas `output.loc[key, :] = value`: replace the row when the key
exists, otherwise append it (setting-with-enlargement). -/
def locSet (tbl : Table) (key : ℕ × ℕ × String) (v : Option ℕ) : Table :=
  if tbl.any fun row => decide (row.1 = key) then
    tbl.map fun row => if row.1 = key then (key, v) else row
  else tbl ++ [(key, v)]

/-- The zero-initialized output DataFrame of `process_file`:
`MultiIndex.from_product([range(max_frame), (left_child, right_child),
JOINTS])`.  Note `List.range max_frame` stops at `max_frame - 1`, exactly
as Python `range(max_frame)` does. -/
def init_table (max_frame left_child right_child : ℕ) : Table :=
  (List.range max_frame).flatMap fun f =>
    [left_child, right_child].flatMap fun c =>
      JOINTS.map fun j => ((f, c, j), (none : Option ℕ))

/-- The per-frame mutable state of `process_file`'s main loop:
`pending_child_ids`, `pending_auto_ids` (Python sets, modelled as lists —
only sizes, membership and removal are used before the buggy `next()`
call), the `id_map` in dict insertion order, and the output table. -/
structure FrameSt where
  pendingChildren : List ℕ
  pendingAutos : List ℕ
  idMap : List (ℕ × Finset ℕ)
  tbl : Table

/-- `consolidate-pose.py process_file`'s inner `update_skeleton(child_id,
auto_id)`: `set.remove` raises `KeyError` when the element is absent;
otherwise remove from both pending sets, add `auto_id` to the child's
known-id set, and copy each joint row of the detection into the output. -/
def update_skeleton (frame child auto : ℕ) (st : FrameSt) :
    Except String FrameSt :=
  if child ∈ st.pendingChildren then
    if auto ∈ st.pendingAutos then
      Except.ok
        ⟨st.pendingChildren.erase child,
         st.pendingAutos.erase auto,
         st.idMap.map fun e => if e.1 = child then (e.1, insert auto e.2) else e,
         JOINTS.foldl (fun t j => locSet t (frame, child, j) (some auto)) st.tbl⟩
    else Except.error "KeyError: pending_auto_ids.remove"
  else Except.error "KeyError: pending_child_ids.remove"

/-- The direct-recognition loop of `process_file`: for each automatic id in
order, find the first `(child_id, known_ids)` entry of `id_map` containing
it and run `update_skeleton` there. -/
def recognition_phase (frame : ℕ) (autos : List ℕ) (st0 : FrameSt) :
    Except String FrameSt :=
  autos.foldlM
    (fun st auto =>
      match st.idMap.find? (fun e => decide (auto ∈ e.2)) with
      | some e => update_skeleton frame e.1 auto st
      | none => Except.ok st)
    st0

/-- One iteration of `process_file`'s `for frame in tqdm(frames)` loop.
After direct recognition: done when no child is pending (asserting no auto
id is left); when exactly one child and one auto id are pending the source
runs `update_skeleton(next(pending_child_ids), next(pending_auto_ids))`,
but `next()` applied to a Python `set` raises
`TypeError: 'set' object is not an iterator` (the working call would be
`next(iter(...))`); any other residual combination falls through to the
`TODO: Figure out the matching` comment and leaves the zero rows. -/
def process_frame (frame : ℕ) (rows : List (ℕ × Skeleton))
    (idMap : List (ℕ × Finset ℕ)) (tbl : Table) :
    Except String (List (ℕ × Finset ℕ) × Table) :=
  let autos := uniqueFirst (rows.map Prod.fst)
  if autos.length ≤ 2 then
    match recognition_phase frame autos ⟨idMap.map Prod.fst, autos, idMap, tbl⟩ with
    | Except.error e => Except.error e
    | Except.ok st =>
      if st.pendingChildren.length = 0 then
        if st.pendingAutos.length = 0 then Except.ok (st.idMap, st.tbl)
        else Except.error "AssertionError: pending autos left"
      else if st.pendingChildren.length = 1 ∧ st.pendingAutos.length = 1 then
        Except.error "TypeError: set object is not an iterator"
      else Except.ok (st.idMap, st.tbl)
  else Except.error "AssertionError: more than 2 automatic ids"

/-- `consolidate-pose.py process_file`: seed the role map from
`get_first_ordered_pair`, preallocate the zero table over
`range(max_frame)` where `max_frame = frames[-1]`, then run the per-frame
propagation loop.  `data` models the skeleton DataFrame grouped by frame in
sorted order; an uncaught Python exception is an `Except.error`. -/
def process_file (left_child right_child : ℕ)
    (data : List (ℕ × List (ℕ × Skeleton))) : Except String Table :=
  match data.getLast? with
  | none => Except.error "IndexError: frames is empty"
  | some lastEntry =>
    match get_first_ordered_pair data with
    | Except.error e => Except.error e
    | Except.ok seeds =>
      let max_frame := lastEntry.1
      let idMap0 : List (ℕ × Finset ℕ) :=
        [(left_child, {seeds.1}), (right_child, {seeds.2})]
      let tbl0 := init_table max_frame left_child right_child
      (data.foldlM
        (fun (acc : List (ℕ × Finset ℕ) × Table) fr =>
          process_frame fr.1 fr.2 acc.1 acc.2)
        (idMap0, tbl0)).map Prod.snd

/-! ## Concrete inputs used by the claim theorems -/

/-- A skeleton whose 25 joints all sit at `(x, y)` with the given
confidence. -/
def skelAt (x y conf : ℚ) : Skeleton :=
  ⟨fun _ => ⟨x, y, conf⟩, none⟩

/-- A skeleton with every joint at confidence 0 (nothing eligible). -/
def zskel : Skeleton := skelAt 0 0 0

/-- A skeleton with every joint at confidence exactly `MIN_CONFIDENCE`. -/
def c5skel : Skeleton := skelAt 0 0 (1 / 5)

/-- Concrete 2×3 cost table for the 2-previous/3-current matcher scenario. -/
def c6cost : ℕ → ℕ → ℚ := fun i j => (i : ℚ) + 2 * (j : ℚ)

/-- First frame of the role-resolver example: ids 1 and 2 at x = 100 and
x = 500, both confidence 1. -/
def c9frame : List (ℕ × Skeleton) :=
  [(1, skelAt 100 50 1), (2, skelAt 500 50 1)]

/-- Role-resolver example data: a single two-detection frame. -/
def c9data : List (ℕ × List (ℕ × Skeleton)) := [(0, c9frame)]

/-- Propagator example (C1): frame 0 seeds ids 1 (left) and 2 (right);
frame 1 shows known id 1 plus brand-new id 7, leaving exactly one pending
role and one pending id; frame 2 exists only so the failing frame is not
the last one. -/
def exD1 : List (ℕ × List (ℕ × Skeleton)) :=
  [(0, [(1, skelAt 100 50 1), (2, skelAt 500 50 1)]),
   (1, [(1, skelAt 100 50 1), (7, skelAt 300 50 1)]),
   (2, [(1, skelAt 100 50 1)])]

/-- Output-completeness example (C4): frame 0 seeds ids 1 and 2; the last
frame (1) shows only the brand-new id 9, so neither role resolves there and
the TODO fall-through leaves no writes for frame 1. -/
def exD4 : List (ℕ × List (ℕ × Skeleton)) :=
  [(0, [(1, skelAt 100 50 1), (2, skelAt 500 50 1)]),
   (1, [(9, skelAt 300 50 1)])]

/-! ## Helper lemmas -/

lemma get_uid_spec (rand : ℕ → ℕ) :
    ∀ (fuel pos : ℕ) (uids : List ℕ) (id pos2 : ℕ) (uids2 : List ℕ),
      get_uid rand fuel pos uids = some (id, pos2, uids2) →
      id ∉ uids ∧ uids2 = uids ++ [id] := by
  intro fuel
  induction fuel with
  | zero => intro pos uids id pos2 uids2 h; simp [get_uid] at h
  | succ n ih =>
    intro pos uids id pos2 uids2 h
    by_cases hmem : rand pos ∈ uids
    · simp only [get_uid, if_pos hmem] at h
      exact ih (pos + 1) uids id pos2 uids2 h
    · simp only [get_uid, if_neg hmem, Option.some.injEq, Prod.mk.injEq] at h
      obtain ⟨h1, _, h3⟩ := h
      exact ⟨h1 ▸ hmem, h3.symm ▸ (h1 ▸ rfl)⟩

lemma popUnique_singleton (g : ℕ) : popUnique {g} = g := by
  simp [popUnique]

lemma relabelFirst_toFinset :
    ∀ (ids : List ℕ) (g l : ℕ), ids.Nodup → g ∈ ids → l ∉ ids →
      (relabelFirst ids g l).toFinset = insert l (ids.toFinset.erase g) := by
  intro ids
  induction ids with
  | nil => intro g l _ hg _; simp at hg
  | cons x xs ih =>
    intro g l hnd hg hl
    by_cases hx : x = g
    · subst hx
      have hxs : x ∉ xs := (List.nodup_cons.mp hnd).1
      rw [relabelFirst, if_pos rfl]
      ext y
      simp only [List.toFinset_cons, Finset.mem_insert, Finset.mem_erase,
        List.mem_toFinset]
      constructor
      · rintro (rfl | hy)
        · exact Or.inl rfl
        · exact Or.inr ⟨fun hyx => hxs (hyx ▸ hy), Or.inr hy⟩
      · rintro (rfl | ⟨hy1, (rfl | hy2)⟩)
        · exact Or.inl rfl
        · exact absurd rfl hy1
        · exact Or.inr hy2
    · have hg2 : g ∈ xs := by
        cases hg with
        | head => exact absurd rfl hx
        | tail _ h => exact h
      have hl2 : l ∉ xs := fun h => hl (List.mem_cons_of_mem _ h)
      rw [relabelFirst, if_neg hx, List.toFinset_cons,
        ih g l (List.nodup_cons.mp hnd).2 hg2 hl2]
      ext y
      simp only [Finset.mem_insert, Finset.mem_erase, List.toFinset_cons,
        List.mem_toFinset]
      constructor
      · rintro (rfl | (rfl | ⟨hy1, hy2⟩))
        · exact Or.inr ⟨hx, Or.inl rfl⟩
        · exact Or.inl rfl
        · exact Or.inr ⟨hy1, Or.inr hy2⟩
      · rintro (rfl | ⟨hy1, (rfl | hy2)⟩)
        · exact Or.inr (Or.inl rfl)
        · exact Or.inl rfl
        · exact Or.inr (Or.inr ⟨hy1, hy2⟩)

lemma idBuffer_update_def (buffer : Finset ℕ) (ids : List ℕ) :
    idBuffer_update buffer ids =
      if (ids.toFinset \ buffer).card = 0 then (buffer, ids)
      else if 1 < buffer.card ∧ (buffer \ ids.toFinset).card = 1 ∧
          (ids.toFinset \ buffer).card = 1 then
        (buffer, relabelFirst ids (popUnique (ids.toFinset \ buffer))
          (popUnique (buffer \ ids.toFinset)))
      else (ids.toFinset, ids) := rfl

lemma rmse_foldl_spec (a b : Skeleton) :
    ∀ (l : List String) (q : ℚ) (n : ℕ),
      l.foldl (rmse_step a b) (q, n) =
        (q + ((l.filter fun j => decide (MIN_CONFIDENCE ≤ (a.joints j).confidence ∧
              MIN_CONFIDENCE ≤ (b.joints j).confidence)).map
            fun j => sq_dist (a.joints j) (b.joints j)).sum,
         n + (l.filter fun j => decide (MIN_CONFIDENCE ≤ (a.joints j).confidence ∧
              MIN_CONFIDENCE ≤ (b.joints j).confidence)).length) := by
  intro l
  induction l with
  | nil => intro q n; simp
  | cons x xs ih =>
    intro q n
    by_cases hx : (a.joints x).confidence < MIN_CONFIDENCE ∨
        (b.joints x).confidence < MIN_CONFIDENCE
    · have hfilter : (decide (MIN_CONFIDENCE ≤ (a.joints x).confidence ∧
          MIN_CONFIDENCE ≤ (b.joints x).confidence)) = false := by
        rcases hx with hx | hx
        · simp [not_le.mpr hx]
        · simp [not_le.mpr hx]
      simp only [List.foldl_cons, rmse_step, if_pos hx, List.filter_cons, hfilter,
        Bool.false_eq_true, if_false]
      exact ih q n
    · push_neg at hx
      have hfilter : (decide (MIN_CONFIDENCE ≤ (a.joints x).confidence ∧
          MIN_CONFIDENCE ≤ (b.joints x).confidence)) = true := by
        simpa using hx
      have hx2 : ¬((a.joints x).confidence < MIN_CONFIDENCE ∨
          (b.joints x).confidence < MIN_CONFIDENCE) := by
        push_neg; exact hx
      simp only [List.foldl_cons, rmse_step, if_neg hx2, List.filter_cons, hfilter,
        if_true]
      rw [ih]
      simp only [List.map_cons, List.sum_cons, List.length_cons, Prod.mk.injEq]
      constructor
      · ring
      · omega

lemma rmse_acc_eq (a b : Skeleton) :
    rmse_acc a b =
      (((eligible_joints a b).map fun j => sq_dist (a.joints j) (b.joints j)).sum,
       (eligible_joints a b).length) := by
  unfold rmse_acc eligible_joints
  rw [rmse_foldl_spec]
  simp

/-! ## Claim theorems -/

/-- C7: the identifier allocator never returns a value twice: whenever `n`
calls of `UidProvider.get_uid` (driven by any stream of `random.randint`
draws, with enough fuel for the retry loop) all return, the `n` returned
values are pairwise distinct, and none of them was ever issued before. -/
theorem c7_uid_unique (rand : ℕ → ℕ) (fuel : ℕ) :
    ∀ (n pos : ℕ) (uids out : List ℕ),
      run_uids rand fuel n pos uids = some out →
      out.length = n ∧ out.Nodup ∧ ∀ i ∈ out, i ∉ uids := by
  intro n
  induction n with
  | zero =>
    intro pos uids out h
    simp only [run_uids, Option.some.injEq] at h
    subst h; simp
  | succ m ih =>
    intro pos uids out h
    simp only [run_uids] at h
    cases hg : get_uid rand fuel pos uids with
    | none => rw [hg] at h; simp at h
    | some t =>
      obtain ⟨id, pos2, uids2⟩ := t
      rw [hg] at h
      dsimp only at h
      cases hr : run_uids rand fuel m pos2 uids2 with
      | none => rw [hr] at h; simp at h
      | some rest =>
        rw [hr] at h
        have hout : id :: rest = out := by simpa using h
        obtain ⟨hid, huids2⟩ := get_uid_spec rand fuel pos uids id pos2 uids2 hg
        obtain ⟨hlen, hnd, hnin⟩ := ih pos2 uids2 rest hr
        subst huids2
        subst hout
        refine ⟨by simp [hlen], ?_, ?_⟩
        · refine List.nodup_cons.mpr ⟨fun hmem => ?_, hnd⟩
          exact (hnin id hmem) (by simp)
        · intro i hi
          rcases List.mem_cons.mp hi with rfl | hi2
          · exact hid
          · exact fun hmem => (hnin i hi2) (List.mem_append_left _ hmem)

/-- C7 witness: with the identity draw stream, fuel 1 and 3 calls starting
from an empty provider, the returned ids `[0, 1, 2]` are 3 pairwise-distinct
fresh values. -/
theorem c7_uid_unique_witness :
    ([0, 1, 2] : List ℕ).length = 3 ∧ ([0, 1, 2] : List ℕ).Nodup ∧
      ∀ i ∈ ([0, 1, 2] : List ℕ), i ∉ ([] : List ℕ) :=
  c7_uid_unique (fun k => k) 1 3 0 [] [0, 1, 2] (by decide)

/-- C2 counterexample: with known-id buffer `{0, 1}`, a frame whose only id
is `0` (one id missing, none new) leaves the buffer at `{0, 1}`; the claim
says the buffer is replaced by the frame set `{0}`. -/
theorem c2_counterexample :
    (idBuffer_update {0, 1} [0]).1 = ({0, 1} : Finset ℕ) ∧
      (({0, 1} : Finset ℕ) ≠ ({0} : Finset ℕ)) := by
  decide

/-- C2 (amended): `IdBuffer.update` relabels the frame's unique new id to
the unique missing id and keeps the buffer when the buffer has more than
one member and exactly one id flipped; when NO id is new it leaves both the
buffer and the detections untouched (even if known ids are missing, so
`{A, B}` followed by a frame showing only `{A}` keeps the buffer `{A, B}`);
in every other case it replaces the buffer by the frame's id set without
relabeling. -/
theorem c2_flicker_amended (buffer : Finset ℕ) (ids : List ℕ) :
    (ids.toFinset \ buffer = ∅ → idBuffer_update buffer ids = (buffer, ids))
    ∧ (∀ g l : ℕ, ids.toFinset \ buffer = {g} → buffer \ ids.toFinset = {l} →
        1 < buffer.card →
        (idBuffer_update buffer ids).1 = buffer ∧
        (idBuffer_update buffer ids).2 = relabelFirst ids g l ∧
        (ids.Nodup →
          ((idBuffer_update buffer ids).2).toFinset =
            insert l (ids.toFinset.erase g)))
    ∧ (ids.toFinset \ buffer ≠ ∅ →
        ¬(1 < buffer.card ∧ (buffer \ ids.toFinset).card = 1 ∧
            (ids.toFinset \ buffer).card = 1) →
        idBuffer_update buffer ids = (ids.toFinset, ids)) := by
  refine ⟨?_, ?_, ?_⟩
  · intro h
    rw [idBuffer_update_def, h]
    simp
  · intro g l hg hl hcard
    have hbranch : idBuffer_update buffer ids =
        (buffer, relabelFirst ids (popUnique (ids.toFinset \ buffer))
          (popUnique (buffer \ ids.toFinset))) := by
      rw [idBuffer_update_def, if_neg (by rw [hg]; simp),
        if_pos ⟨hcard, by rw [hl]; simp, by rw [hg]; simp⟩]
    rw [hg, hl, popUnique_singleton, popUnique_singleton] at hbranch
    refine ⟨by rw [hbranch], by rw [hbranch], ?_⟩
    intro hnd
    rw [hbranch]
    have hgmem : g ∈ ids := by
      have : g ∈ ids.toFinset \ buffer := hg ▸ Finset.mem_singleton_self g
      exact List.mem_toFinset.mp (Finset.mem_sdiff.mp this).1
    have hlmem : l ∉ ids := by
      have : l ∈ buffer \ ids.toFinset := hl ▸ Finset.mem_singleton_self l
      exact fun hmem => (Finset.mem_sdiff.mp this).2 (List.mem_toFinset.mpr hmem)
    exact relabelFirst_toFinset ids g l hnd hgmem hlmem
  · intro hne hnot
    rw [idBuffer_update_def, if_neg (fun h => hne (Finset.card_eq_zero.mp h)),
      if_neg hnot]

/-- C2 witness: buffer `{0, 1}`, frame ids `[0, 2]` (id 1 missing, id 2
new): detection 2 is relabeled to 1 in place and the buffer stays `{0, 1}`. -/
theorem c2_flicker_amended_witness :
    (idBuffer_update {0, 1} [0, 2]).1 = ({0, 1} : Finset ℕ) ∧
    (idBuffer_update {0, 1} [0, 2]).2 = relabelFirst [0, 2] 2 1 ∧
    ((idBuffer_update {0, 1} [0, 2]).2).toFinset =
      insert 1 (([0, 2] : List ℕ).toFinset.erase 2) := by
  have h := (c2_flicker_amended {0, 1} [0, 2]).2.1 2 1 (by decide) (by decide)
    (by decide)
  exact ⟨h.1, h.2.1, h.2.2 (by decide)⟩

lemma sq_dist_nonneg (a b : Keypoint) : 0 ≤ sq_dist a b :=
  add_nonneg (sq_nonneg _) (sq_nonneg _)

/-- C8 counterexample: with uncertainty weight 0 (the weight is
`face_std`, which is 0 for degenerate face data with constant coordinates),
two face anchors at the same position but different confidences get exactly
the same cost, so the cost is not strictly decreasing in the confidence. -/
theorem c8_counterexample :
    ((⟨3, 4, 0⟩ : Keypoint).confidence < (⟨3, 4, 1⟩ : Keypoint).confidence)
    ∧ get_error ⟨0, 0, 1⟩ ⟨3, 4, 0⟩ 0 = get_error ⟨0, 0, 1⟩ ⟨3, 4, 1⟩ 0 := by
  constructor
  · norm_num
  · unfold get_error
    norm_num [sq_dist]

/-- C8 (amended): the cross-modality cost `get_error` is strictly increasing
in the anchor distance for every uncertainty weight (confidence held fixed),
and strictly decreasing in the face confidence whenever the uncertainty
weight is positive (distance held fixed); at weight 0 the confidence has no
effect (see the counterexample). -/
theorem c8_monotone_amended :
    (∀ (s f g : Keypoint) (w : ℚ), sq_dist s f < sq_dist s g →
      f.confidence = g.confidence → get_error s f w < get_error s g w)
    ∧ (∀ (s f g : Keypoint) (w : ℚ), 0 < w → sq_dist s f = sq_dist s g →
      f.confidence < g.confidence → get_error s g w < get_error s f w) := by
  constructor
  · intro s f g w hd hc
    unfold get_error
    rw [hc]
    have hsqrt : Real.sqrt ((sq_dist s f : ℚ) : ℝ) <
        Real.sqrt ((sq_dist s g : ℚ) : ℝ) := by
      apply Real.sqrt_lt_sqrt
      · exact_mod_cast sq_dist_nonneg s f
      · exact_mod_cast hd
    exact add_lt_add_right hsqrt _
  · intro s f g w hw hd hc
    unfold get_error
    rw [hd]
    apply add_lt_add_left
    apply mul_lt_mul_of_pos_left _ (by exact_mod_cast hw)
    have : (f.confidence : ℝ) < (g.confidence : ℝ) := by exact_mod_cast hc
    linarith

/-- C8 witness: anchor at the origin; moving the face anchor from distance 1
to distance 2 (confidence fixed at 1/2, weight 7) strictly increases the
cost, and raising the confidence from 0 to 1 (position fixed, weight 1)
strictly decreases it. -/
theorem c8_monotone_amended_witness :
    get_error ⟨0, 0, 1⟩ ⟨1, 0, 1 / 2⟩ 7 < get_error ⟨0, 0, 1⟩ ⟨2, 0, 1 / 2⟩ 7
    ∧ get_error ⟨0, 0, 1⟩ ⟨3, 4, 1⟩ 1 < get_error ⟨0, 0, 1⟩ ⟨3, 4, 0⟩ 1 :=
  ⟨c8_monotone_amended.1 ⟨0, 0, 1⟩ ⟨1, 0, 1 / 2⟩ ⟨2, 0, 1 / 2⟩ 7
      (by norm_num [sq_dist]) rfl,
   c8_monotone_amended.2 ⟨0, 0, 1⟩ ⟨3, 4, 0⟩ ⟨3, 4, 1⟩ 1 (by norm_num)
      (by norm_num [sq_dist]) (by norm_num)⟩

lemma filter_map_comm (s : Skeleton) (p : Keypoint → Bool) (l : List String) :
    (l.map s.joints).filter p = (l.filter fun j => p (s.joints j)).map s.joints := by
  induction l with
  | nil => simp
  | cons x xs ih =>
    by_cases hx : p (s.joints x)
    · simp only [List.map_cons, List.filter_cons, hx, if_true, ih]
    · simp only [List.map_cons, List.filter_cons, hx, Bool.false_eq_true, if_false, ih]

lemma get_center_of_mass_def (s : Skeleton) :
    get_center_of_mass s =
      (if ((JOINTS.map s.joints).filter fun k =>
          decide (MIN_CONFIDENCE < k.confidence)).length = 0 then
        (⟨PyFloat.nan, PyFloat.nan, 0⟩ : Anchor)
      else
        ⟨PyFloat.val
            ((((JOINTS.map s.joints).filter fun k =>
                decide (MIN_CONFIDENCE < k.confidence)).map Keypoint.x).sum /
              ((((JOINTS.map s.joints).filter fun k =>
                decide (MIN_CONFIDENCE < k.confidence)).length : ℚ))),
         PyFloat.val
            ((((JOINTS.map s.joints).filter fun k =>
                decide (MIN_CONFIDENCE < k.confidence)).map Keypoint.y).sum /
              ((((JOINTS.map s.joints).filter fun k =>
                decide (MIN_CONFIDENCE < k.confidence)).length : ℚ))),
         (((JOINTS.map s.joints).map Keypoint.confidence).sum /
            (((JOINTS.map s.joints).length : ℚ)))⟩) := rfl

/-- C10: the anchor extractor `get_center_of_mass` returns NaN coordinates
with confidence exactly 0 when no joint clears confidence strictly above
0.20, and otherwise averages the positions of exactly the qualifying joints
while averaging the confidence over all 25 joints (including the
unqualified ones). -/
theorem c10_center_of_mass (s : Skeleton) :
    ((∀ j ∈ JOINTS, ¬ MIN_CONFIDENCE < (s.joints j).confidence) →
      get_center_of_mass s = ⟨PyFloat.nan, PyFloat.nan, 0⟩)
    ∧ ((∃ j ∈ JOINTS, MIN_CONFIDENCE < (s.joints j).confidence) →
      get_center_of_mass s =
        ⟨PyFloat.val
            ((((JOINTS.filter fun j =>
                decide (MIN_CONFIDENCE < (s.joints j).confidence)).map
                fun j => (s.joints j).x).sum) /
              (((JOINTS.filter fun j =>
                decide (MIN_CONFIDENCE < (s.joints j).confidence)).length : ℚ))),
         PyFloat.val
            ((((JOINTS.filter fun j =>
                decide (MIN_CONFIDENCE < (s.joints j).confidence)).map
                fun j => (s.joints j).y).sum) /
              (((JOINTS.filter fun j =>
                decide (MIN_CONFIDENCE < (s.joints j).confidence)).length : ℚ))),
         ((JOINTS.map fun j => (s.joints j).confidence).sum) / 25⟩) := by
  have hcomm := filter_map_comm s (fun k => decide (MIN_CONFIDENCE < k.confidence)) JOINTS
  constructor
  · intro h
    have hnil : (JOINTS.filter fun j =>
        decide (MIN_CONFIDENCE < (s.joints j).confidence)) = [] := by
      rw [List.filter_eq_nil_iff]
      intro j hj
      simpa using h j hj
    rw [get_center_of_mass_def, hcomm, hnil]
    simp
  · intro h
    obtain ⟨j0, hj0, hconf⟩ := h
    have hne : (JOINTS.filter fun j =>
        decide (MIN_CONFIDENCE < (s.joints j).confidence)) ≠ [] := by
      intro hnil
      rw [List.filter_eq_nil_iff] at hnil
      exact (hnil j0 hj0) (by simpa using hconf)
    have hlen0 : ((JOINTS.filter fun j =>
        decide (MIN_CONFIDENCE < (s.joints j).confidence)).length) ≠ 0 := by
      simpa [List.length_eq_zero] using hne
    rw [get_center_of_mass_def, hcomm]
    rw [if_neg (by simpa using hlen0)]
    have h25 : ((JOINTS.length : ℕ) : ℚ) = 25 := by norm_num [JOINTS]
    simp only [List.map_map, List.length_map, Anchor.mk.injEq, PyFloat.val.injEq, h25]
    exact ⟨rfl, rfl, rfl⟩

/-- C10 witness: a skeleton with all joints at confidence 0 produces the
NaN/0 anchor; a skeleton with all joints at `(100, 50)` and confidence 1
produces the averaged anchor of the qualifying joints. -/
theorem c10_center_of_mass_witness :
    get_center_of_mass zskel = ⟨PyFloat.nan, PyFloat.nan, 0⟩
    ∧ get_center_of_mass (skelAt 100 50 1) =
        ⟨PyFloat.val
            ((((JOINTS.filter fun j =>
                decide (MIN_CONFIDENCE < ((skelAt 100 50 1).joints j).confidence)).map
                fun j => ((skelAt 100 50 1).joints j).x).sum) /
              (((JOINTS.filter fun j =>
                decide (MIN_CONFIDENCE < ((skelAt 100 50 1).joints j).confidence)).length : ℚ))),
         PyFloat.val
            ((((JOINTS.filter fun j =>
                decide (MIN_CONFIDENCE < ((skelAt 100 50 1).joints j).confidence)).map
                fun j => ((skelAt 100 50 1).joints j).y).sum) /
              (((JOINTS.filter fun j =>
                decide (MIN_CONFIDENCE < ((skelAt 100 50 1).joints j).confidence)).length : ℚ))),
         ((JOINTS.map fun j => ((skelAt 100 50 1).joints j).confidence).sum) / 25⟩ :=
  ⟨(c10_center_of_mass zskel).1 (by with_unfolding_all decide),
   (c10_center_of_mass (skelAt 100 50 1)).2 (by with_unfolding_all decide)⟩

/-- C5 counterexample: two identical skeletons whose joints all have
confidence exactly 0.20 — no joint is *above* the threshold on either side,
yet `get_rmse` returns 0 (the joints still count because the code only
skips on strictly smaller confidence), not the 1e30 sentinel the claim
requires. -/
theorem c5_counterexample :
    (∀ j ∈ JOINTS, ¬(MIN_CONFIDENCE < (c5skel.joints j).confidence ∧
        MIN_CONFIDENCE < (c5skel.joints j).confidence))
    ∧ get_rmse c5skel c5skel = 0
    ∧ ((0 : ℝ) ≠ ((BAD_MATCH_RMSE : ℚ) : ℝ)) := by
  refine ⟨by with_unfolding_all decide, ?_, by norm_num [BAD_MATCH_RMSE]⟩
  have h : rmse_acc c5skel c5skel = (0, 25) := by with_unfolding_all decide
  unfold get_rmse
  rw [h]
  norm_num

/-- C5 (amended): `get_rmse` returns exactly the finite sentinel
`BAD_MATCH_RMSE = 1e30` iff no joint has confidence at least 0.20 on both
sides simultaneously (the code's threshold is inclusive, not strict);
otherwise it returns the square root of the mean squared Euclidean distance
over exactly the eligible joints.  The function is total: no NaN, infinity
or exception can occur. -/
theorem c5_rmse_amended (a b : Skeleton) :
    ((∀ j ∈ JOINTS, ¬(MIN_CONFIDENCE ≤ (a.joints j).confidence ∧
        MIN_CONFIDENCE ≤ (b.joints j).confidence)) →
      get_rmse a b = ((BAD_MATCH_RMSE : ℚ) : ℝ))
    ∧ ((∃ j ∈ JOINTS, MIN_CONFIDENCE ≤ (a.joints j).confidence ∧
        MIN_CONFIDENCE ≤ (b.joints j).confidence) →
      get_rmse a b =
        Real.sqrt
          (((((eligible_joints a b).map fun j =>
              sq_dist (a.joints j) (b.joints j)).sum : ℚ) : ℝ) /
            (((eligible_joints a b).length : ℕ) : ℝ))) := by
  constructor
  · intro h
    have hnil : eligible_joints a b = [] := by
      unfold eligible_joints
      rw [List.filter_eq_nil_iff]
      intro j hj
      simpa using h j hj
    unfold get_rmse
    rw [rmse_acc_eq, hnil]
    simp
  · intro h
    obtain ⟨j0, hj0, hc⟩ := h
    have hne : eligible_joints a b ≠ [] := by
      unfold eligible_joints
      intro hnil
      rw [List.filter_eq_nil_iff] at hnil
      exact (hnil j0 hj0) (by simpa using hc)
    have hlen : 0 < (eligible_joints a b).length := List.length_pos.mpr hne
    unfold get_rmse
    rw [rmse_acc_eq]
    rw [if_neg (by simp only [not_lt]; omega)]

/-- C5 witness: two zero-confidence skeletons hit the sentinel branch; two
fully-confident skeletons 5 pixels apart hit the square-root branch. -/
theorem c5_rmse_amended_witness :
    get_rmse zskel zskel = ((BAD_MATCH_RMSE : ℚ) : ℝ)
    ∧ get_rmse (skelAt 0 0 1) (skelAt 5 0 1) =
        Real.sqrt
          (((((eligible_joints (skelAt 0 0 1) (skelAt 5 0 1)).map fun j =>
              sq_dist ((skelAt 0 0 1).joints j) ((skelAt 5 0 1).joints j)).sum : ℚ) : ℝ) /
            (((eligible_joints (skelAt 0 0 1) (skelAt 5 0 1)).length : ℕ) : ℝ)) :=
  ⟨(c5_rmse_amended zskel zskel).1 (by with_unfolding_all decide),
   (c5_rmse_amended (skelAt 0 0 1) (skelAt 5 0 1)).2 (by with_unfolding_all decide)⟩

/-- C1: the forced 1:1 resolution branch of the identity propagator raises.
On `exD1`, frame 1 leaves exactly one pending role and one pending
detection id after direct recognition (second conjunct), and instead of
resolving them `process_file` aborts with the `TypeError` raised by
`next(pending_child_ids)` — `next()` applied to a Python `set` (first
conjunct), contradicting the claim that the pair is force-resolved and
processing continues without an exception. -/
theorem c1_force_resolve_type_error :
    process_file 10 20 exD1 =
      Except.error "TypeError: set object is not an iterator"
    ∧ ((process_frame 0 [(1, skelAt 100 50 1), (2, skelAt 500 50 1)]
          [(10, {1}), (20, {2})] (init_table 2 10 20)).toOption.map
        (fun acc =>
          (recognition_phase 1
              (uniqueFirst (([(1, skelAt 100 50 1), (7, skelAt 300 50 1)] :
                List (ℕ × Skeleton)).map Prod.fst))
              ⟨acc.1.map Prod.fst,
               uniqueFirst (([(1, skelAt 100 50 1), (7, skelAt 300 50 1)] :
                 List (ℕ × Skeleton)).map Prod.fst),
               acc.1, acc.2⟩).toOption.map
            fun st => (st.pendingChildren.length, st.pendingAutos.length)))
      = some (some (1, 1)) := by
  constructor
  · with_unfolding_all decide
  · with_unfolding_all decide

/-- C4: the consolidated output table misses the last frame.  On `exD4`
(frames 0 and 1, so the last frame present in the input is 1, with neither
role resolvable at frame 1) `process_file` succeeds, but the rows
`(1, role, joint)` are absent for both roles — the preallocated index only
covers `range(max_frame) = {0}` — contradicting the claim that every
`(frame, role, joint)` combination through the last frame exists with
all-zero values; the row `(0, right_child, nose)` is present as expected. -/
theorem c4_missing_last_frame :
    exD4.getLast?.map Prod.fst = some 1
    ∧ (process_file 10 20 exD4).toOption.map
        (fun t => ((t.find? fun r => decide (r.1 = (1, 10, "nose"))).isNone,
                   (t.find? fun r => decide (r.1 = (1, 20, "nose"))).isNone,
                   (t.find? fun r => decide (r.1 = (0, 20, "nose"))).isSome))
      = some (true, true, true) := by
  constructor
  · rfl
  · with_unfolding_all decide

lemma pickOne_perm {α : Type} :
    ∀ (xs : List α) (p : α × List α), p ∈ pickOne xs →
      List.Perm (p.1 :: p.2) xs := by
  intro xs
  induction xs with
  | nil => intro p hp; simp [pickOne] at hp
  | cons x xs ih =>
    intro p hp
    simp only [pickOne, List.mem_cons, List.mem_map] at hp
    rcases hp with rfl | ⟨q, hq, rfl⟩
    · exact List.Perm.refl _
    · exact List.Perm.trans (List.Perm.swap x q.1 q.2) ((ih q hq).cons x)

lemma permutationsR_spec {α : Type} :
    ∀ (n : ℕ) (xs : List α) (perm : List α), perm ∈ permutationsR n xs →
      perm.length = n ∧ List.Subperm perm xs := by
  intro n
  induction n with
  | zero =>
    intro xs perm h
    simp only [permutationsR, List.mem_singleton] at h
    subst h
    exact ⟨rfl, List.nil_subperm⟩
  | succ m ih =>
    intro xs perm h
    simp only [permutationsR, List.mem_flatMap, List.mem_map] at h
    obtain ⟨p, hp, rest, hrest, rfl⟩ := h
    obtain ⟨hlen, hsub⟩ := ih p.2 rest hrest
    refine ⟨by simp [hlen], ?_⟩
    obtain ⟨l, hl1, hl2⟩ := hsub
    have h1 : List.Subperm (p.1 :: rest) (p.1 :: p.2) :=
      ⟨p.1 :: l, hl1.cons _, hl2.cons₂ _⟩
    exact h1.trans (pickOne_perm xs p hp).subperm

lemma foldl_step_perm_bestPerm {α : Type} [LinearOrderedField α]
    (cost : ℕ → ℕ → α) :
    ∀ (perms : List (List ℤ)) (st : MatchState α) (perm : List ℤ),
      (perms.foldl (step_perm cost) st).bestPerm = some perm →
      st.bestPerm = some perm ∨ perm ∈ perms := by
  intro perms
  induction perms with
  | nil => intro st perm h; exact Or.inl h
  | cons q qs ih =>
    intro st perm h
    rcases ih (step_perm cost st q) perm h with h2 | h2
    · simp only [step_perm] at h2
      split_ifs at h2
      · simp only [Option.some.injEq] at h2
        exact Or.inr (h2 ▸ List.mem_cons_self q qs)
      · exact Or.inl h2
      · exact Or.inl h2
    · exact Or.inr (List.mem_cons_of_mem _ h2)

lemma count_padded_le_one (P C : ℕ) (v : ℤ) (hv : 0 ≤ v) :
    (padded_indices P C).count v ≤ 1 := by
  unfold padded_indices
  rw [List.count_append]
  have h1 : ((List.range C).map Int.ofNat).count v ≤ 1 := by
    apply List.nodup_iff_count_le_one.mp
    exact (List.nodup_range C).map (fun a b h => Int.ofNat.inj h)
  have h2 : (List.replicate (P - C) (-1 : ℤ)).count v = 0 := by
    simp only [List.count_replicate]
    rw [if_neg (by simp only [beq_iff_eq]; omega)]
  rw [h2]
  simpa using h1

lemma enumFrom_filter_snd {γ : Type} (p : γ → Bool) :
    ∀ (l : List γ) (n : ℕ),
      ((l.enumFrom n).filter fun x => p x.2).map Prod.snd = l.filter p := by
  intro l
  induction l with
  | nil => intro n; rfl
  | cons x xs ih =>
    intro n
    simp only [List.enumFrom, List.filter_cons]
    by_cases hx : p x
    · simp only [hx, if_true, List.map_cons, ih]
    · simp only [hx, Bool.false_eq_true, if_false, ih]

lemma perm_mapping_fst_nodup (perm : List ℤ) :
    ((perm_mapping perm).map Prod.fst).Nodup := by
  unfold perm_mapping
  have hsub : List.Sublist
      ((perm.enum.filter fun p => decide (0 ≤ p.2)).map Prod.fst)
      (perm.enum.map Prod.fst) := (List.filter_sublist _).map _
  have hnd : (perm.enum.map Prod.fst).Nodup := by
    rw [List.enum_map_fst]
    exact List.nodup_range _
  exact hnd.sublist hsub

lemma perm_mapping_snd_eq (perm : List ℤ) :
    (perm_mapping perm).map Prod.snd = perm.filter fun v => decide (0 ≤ v) := by
  unfold perm_mapping
  exact enumFrom_filter_snd (fun v => decide (0 ≤ v)) perm 0

/-- C6: the combinatorial matcher's output mapping is injective in both
directions after dropping the `-1` padding entries: no previous index
appears twice and no current index appears twice, and the number of matched
pairs is exactly `min P C` — so with `P = 2` previous and `C = 3` current
detections, exactly 2 of the 3 current detections are matched (see the
witness). -/
theorem c6_matcher_bijective {α : Type} [LinearOrderedField α]
    (cost : ℕ → ℕ → α) (P C : ℕ) (perm : List ℤ)
    (h : (match_core cost P C).1 = some perm) :
    ((perm_mapping perm).map Prod.fst).Nodup
    ∧ ((perm_mapping perm).map Prod.snd).Nodup
    ∧ (perm_mapping perm).length = min P C := by
  have hmem : perm ∈ permutationsR P (padded_indices P C) := by
    rcases foldl_step_perm_bestPerm cost (permutationsR P (padded_indices P C))
      ⟨none, none, none⟩ perm h with h2 | h2
    · simp at h2
    · exact h2
  obtain ⟨hlen, hsub⟩ := permutationsR_spec P _ perm hmem
  have hsndeq := perm_mapping_snd_eq perm
  have hsnd : ((perm_mapping perm).map Prod.snd).Nodup := by
    rw [hsndeq, List.nodup_iff_count_le_one]
    intro v
    by_cases hv : (0 : ℤ) ≤ v
    · calc (perm.filter fun v => decide (0 ≤ v)).count v
          ≤ perm.count v := (List.filter_sublist _).count_le v
        _ ≤ (padded_indices P C).count v := hsub.count_le v
        _ ≤ 1 := count_padded_le_one P C v hv
    · have hz : (perm.filter fun v => decide (0 ≤ v)).count v = 0 := by
        rw [List.count_eq_zero]
        intro hmem2
        have := List.of_mem_filter hmem2
        simp at this
        exact hv this
      omega
  have hlen2 : (perm_mapping perm).length =
      (perm.filter fun v => decide (0 ≤ v)).length := by
    rw [← hsndeq, List.length_map]
  refine ⟨perm_mapping_fst_nodup perm, hsnd, ?_⟩
  rcases le_or_lt P C with hPC | hPC
  · have hall : ∀ v ∈ perm, decide ((0 : ℤ) ≤ v) = true := by
      intro v hv
      have hvp : v ∈ padded_indices P C := hsub.subset hv
      unfold padded_indices at hvp
      rw [Nat.sub_eq_zero_of_le hPC] at hvp
      simp only [List.replicate_zero, List.append_nil, List.mem_map,
        List.mem_range] at hvp
      obtain ⟨k, _, rfl⟩ := hvp
      simp
    rw [hlen2, List.filter_eq_self.mpr hall, hlen]
    omega
  · have hplen : (padded_indices P C).length = P := by
      unfold padded_indices
      simp only [List.length_append, List.length_map, List.length_range,
        List.length_replicate]
      omega
    have hperm2 : List.Perm perm (padded_indices P C) := by
      apply hsub.perm_of_length_le
      omega
    rw [hlen2, ← List.countP_eq_length_filter, hperm2.countP_eq]
    unfold padded_indices
    rw [List.countP_append]
    have h1 : ((List.range C).map Int.ofNat).countP (fun v => decide (0 ≤ v)) = C := by
      rw [List.countP_eq_length.mpr]
      · simp
      · intro a ha
        simp only [List.mem_map, List.mem_range] at ha
        obtain ⟨k, _, rfl⟩ := ha
        simp
    have h2 : (List.replicate (P - C) (-1 : ℤ)).countP (fun v => decide (0 ≤ v)) = 0 := by
      rw [List.countP_eq_zero]
      intro a ha
      rw [List.eq_of_mem_replicate ha]
      simp
    omega

/-- C6 witness: a 2-previous/3-current cost table; the chosen permutation
`[0, 1]` yields a mapping with distinct previous indices, distinct current
indices, and exactly `min 2 3 = 2` matched pairs. -/
theorem c6_matcher_bijective_witness :
    ((perm_mapping [0, 1]).map Prod.fst).Nodup
    ∧ ((perm_mapping [0, 1]).map Prod.snd).Nodup
    ∧ (perm_mapping [0, 1]).length = min 2 3 :=
  c6_matcher_bijective c6cost 2 3 [0, 1] (by with_unfolding_all decide)

lemma match_core_single {α : Type} [LinearOrderedField α] (cost : ℕ → ℕ → α)
    (h : 0 < cost 0 0) : (match_core cost 1 1).2 = PyScore.inf := by
  have hperm : permutationsR 1 (padded_indices 1 1) = [[(0 : ℤ)]] := rfl
  have hc : perm_cost cost [(0 : ℤ)] = cost 0 0 := by
    unfold perm_cost
    simp [List.enum, List.enumFrom]
  have hst : (permutationsR 1 (padded_indices 1 1)).foldl (step_perm cost)
      ⟨none, none, none⟩ = ⟨some [(0 : ℤ)], some (cost 0 0), none⟩ := by
    rw [hperm]
    simp only [List.foldl_cons, List.foldl_nil, step_perm, hc]
    rw [if_pos (show optLt (cost 0 0) none = true from rfl)]
  have hcore : match_core cost 1 1 =
      (some [(0 : ℤ)], pyDiv (none : Option α) (some (cost 0 0))) := by
    simp only [match_core]
    rw [hst]
  rw [hcore]
  show pyDiv (none : Option α) (some (cost 0 0)) = PyScore.inf
  simp only [pyDiv]
  rw [if_neg h.ne', if_pos h]

lemma match_keypoints_score_single (p c : Skeleton) (h : 0 < get_rmse p c) :
    match_keypoints_score [p] [c] = PyScore.inf := by
  unfold match_keypoints_score
  rw [if_neg (by norm_num), if_neg (by norm_num)]
  exact match_core_single _ h

lemma zskel_rmse_pos : 0 < get_rmse zskel zskel := by
  have h : rmse_acc zskel zskel = (0, 0) := by with_unfolding_all decide
  unfold get_rmse
  rw [h]
  norm_num [BAD_MATCH_RMSE]

lemma rmse55_pos : 0 < get_rmse (skelAt 0 0 1) (skelAt 5 0 1) := by
  have h : rmse_acc (skelAt 0 0 1) (skelAt 5 0 1) = (625, 25) := by
    with_unfolding_all decide
  unfold get_rmse
  rw [h]
  rw [if_neg (by norm_num)]
  apply Real.sqrt_pos.mpr
  norm_num

/-- C3 counterexample: one previous and one current detection (both with no
confident joints, so their cost is the positive sentinel): exactly one
feasible bijection exists, and the salience is `+inf` (the second-best cost
keeps its `np.inf` initialization), not NaN as the claim states. -/
theorem c3_counterexample :
    match_keypoints_score [zskel] [zskel] = PyScore.inf
    ∧ (PyScore.inf : PyScore ℝ) ≠ PyScore.nan :=
  ⟨match_keypoints_score_single zskel zskel zskel_rmse_pos,
   fun hc => PyScore.noConfusion hc⟩

/-- C3 (amended): the salience score is NaN when the previous detection set
is empty (current non-empty); but when exactly one feasible bijection exists
— one previous and one current detection — the second-best total cost keeps
its `np.inf` initialization and the score is `+inf` whenever the single
pairing's cost is positive (a zero cost would instead raise
`ZeroDivisionError`). -/
theorem c3_salience_amended :
    (∀ current : List Skeleton, current ≠ [] →
      match_keypoints_score [] current = PyScore.nan)
    ∧ (∀ p c : Skeleton, 0 < get_rmse p c →
      match_keypoints_score [p] [c] = PyScore.inf) := by
  constructor
  · intro current hne
    unfold match_keypoints_score
    rw [if_neg (by simpa [List.length_eq_zero] using hne)]
    simp
  · exact fun p c h => match_keypoints_score_single p c h

/-- C3 witness: an empty previous set against one detection gives NaN; two
single-skeleton sets 5 pixels apart (cost `sqrt 25 > 0`) give `+inf`. -/
theorem c3_salience_amended_witness :
    match_keypoints_score [] [zskel] = PyScore.nan
    ∧ match_keypoints_score [skelAt 0 0 1] [skelAt 5 0 1] = PyScore.inf :=
  ⟨c3_salience_amended.1 [zskel] (by simp),
   c3_salience_amended.2 (skelAt 0 0 1) (skelAt 5 0 1) rmse55_pos⟩

lemma pyLt_nan_left (b : PyFloat) : pyLt PyFloat.nan b = false := by
  cases b <;> rfl

lemma pyLt_nan_right (a : PyFloat) : pyLt a PyFloat.nan = false := by
  cases a <;> rfl

lemma pyLt_irrefl (a : PyFloat) : pyLt a a = false := by
  cases a with
  | nan => rfl
  | val q => simp [pyLt]

lemma pyLt_chain_min {y b m : PyFloat} (h1 : pyLt y b = true)
    (h2 : pyLt y m = false) : pyLt b m = false := by
  cases y with
  | nan => simp [pyLt] at h1
  | val qy =>
    cases b with
    | nan => simp [pyLt] at h1
    | val qb =>
      cases m with
      | nan => exact pyLt_nan_right _
      | val qm =>
        simp only [pyLt, decide_eq_true_eq, decide_eq_false_iff_not] at h1 h2 ⊢
        linarith

lemma pyLt_chain_max {y b m : PyFloat} (h1 : pyLt b y = true)
    (h2 : pyLt m y = false) : pyLt m b = false := by
  cases y with
  | nan => simp [pyLt] at h1
  | val qy =>
    cases b with
    | nan => simp [pyLt] at h1
    | val qb =>
      cases m with
      | nan => exact pyLt_nan_left _
      | val qm =>
        simp only [pyLt, decide_eq_true_eq, decide_eq_false_iff_not] at h1 h2 ⊢
        linarith

lemma pyMinBy_nan {β : Type} (key : β → PyFloat) :
    ∀ (l : List β) (b : β), key b = PyFloat.nan →
      key (pyMinBy key b l) = PyFloat.nan := by
  intro l
  induction l with
  | nil => intro b h; exact h
  | cons y ys ih =>
    intro b h
    unfold pyMinBy
    simp only [List.foldl_cons]
    rw [show (if pyLt (key y) (key b) then y else b) = b by
      rw [h, pyLt_nan_right]; simp]
    exact ih b h

lemma pyMaxBy_nan {β : Type} (key : β → PyFloat) :
    ∀ (l : List β) (b : β), key b = PyFloat.nan →
      key (pyMaxBy key b l) = PyFloat.nan := by
  intro l
  induction l with
  | nil => intro b h; exact h
  | cons y ys ih =>
    intro b h
    unfold pyMaxBy
    simp only [List.foldl_cons]
    rw [show (if pyLt (key b) (key y) then y else b) = b by
      rw [h, pyLt_nan_left]; simp]
    exact ih b h

lemma pyMinBy_mem {β : Type} (key : β → PyFloat) :
    ∀ (l : List β) (b : β), pyMinBy key b l = b ∨ pyMinBy key b l ∈ l := by
  intro l
  induction l with
  | nil => intro b; exact Or.inl rfl
  | cons y ys ih =>
    intro b
    unfold pyMinBy
    simp only [List.foldl_cons]
    by_cases hc : pyLt (key y) (key b) = true
    · rw [if_pos hc]
      show pyMinBy key y ys = b ∨ pyMinBy key y ys ∈ y :: ys
      rcases ih y with h | h
      · rw [h]; exact Or.inr (List.mem_cons_self _ _)
      · exact Or.inr (List.mem_cons_of_mem _ h)
    · rw [if_neg hc]
      show pyMinBy key b ys = b ∨ pyMinBy key b ys ∈ y :: ys
      rcases ih b with h | h
      · exact Or.inl h
      · exact Or.inr (List.mem_cons_of_mem _ h)

lemma pyMaxBy_mem {β : Type} (key : β → PyFloat) :
    ∀ (l : List β) (b : β), pyMaxBy key b l = b ∨ pyMaxBy key b l ∈ l := by
  intro l
  induction l with
  | nil => intro b; exact Or.inl rfl
  | cons y ys ih =>
    intro b
    unfold pyMaxBy
    simp only [List.foldl_cons]
    by_cases hc : pyLt (key b) (key y) = true
    · rw [if_pos hc]
      show pyMaxBy key y ys = b ∨ pyMaxBy key y ys ∈ y :: ys
      rcases ih y with h | h
      · rw [h]; exact Or.inr (List.mem_cons_self _ _)
      · exact Or.inr (List.mem_cons_of_mem _ h)
    · rw [if_neg hc]
      show pyMaxBy key b ys = b ∨ pyMaxBy key b ys ∈ y :: ys
      rcases ih b with h | h
      · exact Or.inl h
      · exact Or.inr (List.mem_cons_of_mem _ h)

lemma pyMinBy_not_lt {β : Type} (key : β → PyFloat) :
    ∀ (l : List β) (b : β) (x : β), (x = b ∨ x ∈ l) →
      pyLt (key x) (key (pyMinBy key b l)) = false := by
  intro l
  induction l with
  | nil =>
    intro b x hx
    rcases hx with rfl | hx
    · exact pyLt_irrefl _
    · simp at hx
  | cons y ys ih =>
    intro b x hx
    unfold pyMinBy
    simp only [List.foldl_cons]
    by_cases hc : pyLt (key y) (key b) = true
    · rw [if_pos hc]
      show pyLt (key x) (key (pyMinBy key y ys)) = false
      rcases hx with hxb | hx
      · rw [hxb]
        exact pyLt_chain_min hc (ih y y (Or.inl rfl))
      · rcases List.mem_cons.mp hx with hxy | hx2
        · rw [hxy]
          exact ih y y (Or.inl rfl)
        · exact ih y x (Or.inr hx2)
    · rw [if_neg hc]
      show pyLt (key x) (key (pyMinBy key b ys)) = false
      have hcf : pyLt (key y) (key b) = false := by simpa using hc
      rcases hx with hxb | hx
      · rw [hxb]
        exact ih b b (Or.inl rfl)
      · rcases List.mem_cons.mp hx with hxy | hx2
        · rw [hxy]
          have hbm := ih b b (Or.inl rfl)
          cases hky : key y with
          | nan => exact pyLt_nan_left _
          | val qy =>
            cases hkm : key (pyMinBy key b ys) with
            | nan => exact pyLt_nan_right _
            | val qm =>
              cases hkb : key b with
              | nan =>
                rw [pyMinBy_nan key ys b hkb] at hkm
                exact absurd hkm (by simp)
              | val qb =>
                rw [hky, hkb] at hcf
                rw [hkb, hkm] at hbm
                simp only [pyLt, decide_eq_false_iff_not] at hcf hbm ⊢
                linarith
        · exact ih b x (Or.inr hx2)

lemma pyMaxBy_not_lt {β : Type} (key : β → PyFloat) :
    ∀ (l : List β) (b : β) (x : β), (x = b ∨ x ∈ l) →
      pyLt (key (pyMaxBy key b l)) (key x) = false := by
  intro l
  induction l with
  | nil =>
    intro b x hx
    rcases hx with rfl | hx
    · exact pyLt_irrefl _
    · simp at hx
  | cons y ys ih =>
    intro b x hx
    unfold pyMaxBy
    simp only [List.foldl_cons]
    by_cases hc : pyLt (key b) (key y) = true
    · rw [if_pos hc]
      show pyLt (key (pyMaxBy key y ys)) (key x) = false
      rcases hx with hxb | hx
      · rw [hxb]
        exact pyLt_chain_max hc (ih y y (Or.inl rfl))
      · rcases List.mem_cons.mp hx with hxy | hx2
        · rw [hxy]
          exact ih y y (Or.inl rfl)
        · exact ih y x (Or.inr hx2)
    · rw [if_neg hc]
      show pyLt (key (pyMaxBy key b ys)) (key x) = false
      have hcf : pyLt (key b) (key y) = false := by simpa using hc
      rcases hx with hxb | hx
      · rw [hxb]
        exact ih b b (Or.inl rfl)
      · rcases List.mem_cons.mp hx with hxy | hx2
        · rw [hxy]
          have hbm := ih b b (Or.inl rfl)
          cases hky : key y with
          | nan => exact pyLt_nan_right _
          | val qy =>
            cases hkm : key (pyMaxBy key b ys) with
            | nan => exact pyLt_nan_left _
            | val qm =>
              cases hkb : key b with
              | nan =>
                rw [pyMaxBy_nan key ys b hkb] at hkm
                exact absurd hkm (by simp)
              | val qb =>
                rw [hkb, hky] at hcf
                rw [hkm, hkb] at hbm
                simp only [pyLt, decide_eq_false_iff_not] at hcf hbm ⊢
                linarith
        · exact ih b x (Or.inr hx2)

/-- C9: whenever the canonical role resolver succeeds with `(l, r)`, the
pair comes from the first frame containing at least two detections, the two
ids differ, the left anchor x is strictly below the right anchor x, both
anchor confidences are positive (the four fatal assertions), and `l` has
the smallest anchor x among the frame's ids while `r` has the largest (the
Python `min`/`max` comparison returns `false` against them for every id). -/
theorem c9_role_resolver (data : List (ℕ × List (ℕ × Skeleton))) (l r : ℕ)
    (h : get_first_ordered_pair data = Except.ok (l, r)) :
    ∃ fr, firstMulti data = some fr ∧
      l ∈ uniqueFirst (fr.2.map Prod.fst) ∧
      r ∈ uniqueFirst (fr.2.map Prod.fst) ∧
      l ≠ r ∧
      pyLt (get_center_of_mass (lookupSkel fr.2 l)).x
        (get_center_of_mass (lookupSkel fr.2 r)).x = true ∧
      0 < (get_center_of_mass (lookupSkel fr.2 l)).confidence ∧
      0 < (get_center_of_mass (lookupSkel fr.2 r)).confidence ∧
      (∀ i ∈ uniqueFirst (fr.2.map Prod.fst),
        pyLt (get_center_of_mass (lookupSkel fr.2 i)).x
          (get_center_of_mass (lookupSkel fr.2 l)).x = false) ∧
      (∀ i ∈ uniqueFirst (fr.2.map Prod.fst),
        pyLt (get_center_of_mass (lookupSkel fr.2 r)).x
          (get_center_of_mass (lookupSkel fr.2 i)).x = false) := by
  unfold get_first_ordered_pair at h
  cases hfm : firstMulti data with
  | none => rw [hfm] at h; simp at h
  | some fr =>
    rw [hfm] at h
    dsimp only at h
    cases hmc : (uniqueFirst (fr.2.map Prod.fst)).map
        (fun i => (i, get_center_of_mass (lookupSkel fr.2 i))) with
    | nil => rw [hmc] at h; simp at h
    | cons m rest =>
      rw [hmc] at h
      dsimp only at h
      split_ifs at h with h1 h2 h3 h4
      · simp only [Except.ok.injEq, Prod.mk.injEq] at h
        obtain ⟨hl, hr⟩ := h
        have hLin : pyMinBy (fun p => p.2.x) m rest ∈
            (uniqueFirst (fr.2.map Prod.fst)).map
              (fun i => (i, get_center_of_mass (lookupSkel fr.2 i))) := by
          rw [hmc]
          rcases pyMinBy_mem (fun p => p.2.x) rest m with hm | hm
          · rw [hm]; exact List.mem_cons_self _ _
          · exact List.mem_cons_of_mem _ hm
        have hRin : pyMaxBy (fun p => p.2.x) m rest ∈
            (uniqueFirst (fr.2.map Prod.fst)).map
              (fun i => (i, get_center_of_mass (lookupSkel fr.2 i))) := by
          rw [hmc]
          rcases pyMaxBy_mem (fun p => p.2.x) rest m with hm | hm
          · rw [hm]; exact List.mem_cons_self _ _
          · exact List.mem_cons_of_mem _ hm
        obtain ⟨la, hla_mem, hla_eq⟩ := List.mem_map.mp hLin
        obtain ⟨ra, hra_mem, hra_eq⟩ := List.mem_map.mp hRin
        have hL1 : (pyMinBy (fun p => p.2.x) m rest).1 = la := by rw [← hla_eq]
        have hL2 : (pyMinBy (fun p => p.2.x) m rest).2 =
            get_center_of_mass (lookupSkel fr.2 la) := by rw [← hla_eq]
        have hR1 : (pyMaxBy (fun p => p.2.x) m rest).1 = ra := by rw [← hra_eq]
        have hR2 : (pyMaxBy (fun p => p.2.x) m rest).2 =
            get_center_of_mass (lookupSkel fr.2 ra) := by rw [← hra_eq]
        have hlla : l = la := by rw [← hl, hL1]
        have hrra : r = ra := by rw [← hr, hR1]
        subst hlla
        subst hrra
        refine ⟨fr, rfl, hla_mem, hra_mem, ?_, ?_, ?_, ?_, ?_, ?_⟩
        · intro hlr
          exact h1 (by rw [hL1, hR1, hlr])
        · rw [← hL2, ← hR2]; exact h2
        · rw [← hL2]; exact h3
        · rw [← hR2]; exact h4
        · intro i hi
          have hpair : (i, get_center_of_mass (lookupSkel fr.2 i)) ∈
              (uniqueFirst (fr.2.map Prod.fst)).map
                (fun i => (i, get_center_of_mass (lookupSkel fr.2 i))) :=
            List.mem_map.mpr ⟨i, hi, rfl⟩
          rw [hmc] at hpair
          have := pyMinBy_not_lt (fun p => p.2.x) rest m
            (i, get_center_of_mass (lookupSkel fr.2 i))
            (by rcases List.mem_cons.mp hpair with hp | hp
                · exact Or.inl hp
                · exact Or.inr hp)
          rw [← hL2]
          exact this
        · intro i hi
          have hpair : (i, get_center_of_mass (lookupSkel fr.2 i)) ∈
              (uniqueFirst (fr.2.map Prod.fst)).map
                (fun i => (i, get_center_of_mass (lookupSkel fr.2 i))) :=
            List.mem_map.mpr ⟨i, hi, rfl⟩
          rw [hmc] at hpair
          have := pyMaxBy_not_lt (fun p => p.2.x) rest m
            (i, get_center_of_mass (lookupSkel fr.2 i))
            (by rcases List.mem_cons.mp hpair with hp | hp
                · exact Or.inl hp
                · exact Or.inr hp)
          rw [← hR2]
          exact this

/-- C9 witness: two detections at x = 100 and x = 500, both confidence 1:
the resolver returns left = id 1 (x = 100) and right = id 2 (x = 500) and
all assertion conditions hold. -/
theorem c9_role_resolver_witness :
    get_first_ordered_pair c9data = Except.ok (1, 2)
    ∧ ∃ fr, firstMulti c9data = some fr ∧
      1 ∈ uniqueFirst (fr.2.map Prod.fst) ∧
      2 ∈ uniqueFirst (fr.2.map Prod.fst) ∧
      (1 : ℕ) ≠ 2 ∧
      pyLt (get_center_of_mass (lookupSkel fr.2 1)).x
        (get_center_of_mass (lookupSkel fr.2 2)).x = true ∧
      0 < (get_center_of_mass (lookupSkel fr.2 1)).confidence ∧
      0 < (get_center_of_mass (lookupSkel fr.2 2)).confidence ∧
      (∀ i ∈ uniqueFirst (fr.2.map Prod.fst),
        pyLt (get_center_of_mass (lookupSkel fr.2 i)).x
          (get_center_of_mass (lookupSkel fr.2 1)).x = false) ∧
      (∀ i ∈ uniqueFirst (fr.2.map Prod.fst),
        pyLt (get_center_of_mass (lookupSkel fr.2 2)).x
          (get_center_of_mass (lookupSkel fr.2 i)).x = false) :=
  ⟨by with_unfolding_all decide,
   c9_role_resolver c9data 1 2 (by with_unfolding_all decide)⟩
